import Mathlib

/-!
Verification of the multi-control multi-target (MCMT) gate synthesizer
(`qiskit/aqua/utils/mcmt.py`): `_ccx_v_chain_compute`,
`_ccx_v_chain_uncompute` and the orchestrator `mcmt`.

Qubits are modelled as natural-number identifiers.  The host circuit is the
list of operations appended by one call; the functions below return the list
of appended operations together with the error (if any) the Python code would
raise, so that partial emission before an exception is visible.  Classical
boolean semantics interprets `ccx` as a Toffoli gate (target ^= c1 && c2) and
the caller-supplied single-control primitive as `if control then g target`.
-/

/-- One operation appended to the circuit: either a Toffoli fold used by the
V-chain, or the caller-supplied single-control primitive gate. -/
inductive Op where
  | ccx (c1 c2 t : Nat)
  | cgate (c t : Nat)
deriving DecidableEq, Repr

/-- The errors the Python code can raise: the three argument-type
`ValueError`s, the two qubit-validation errors, the `AssertionError` of the
compute chain, the unsupported-mode `ValueError`, and a Python `IndexError`
from an out-of-range list subscript. -/
inductive MCMTError where
  | valueErrorControls
  | valueErrorTargets
  | valueErrorAncillae
  | invalidQubit
  | duplicateQubit
  | insufficientAncilla
  | unsupportedMode
  | indexError
deriving DecidableEq, Repr

/-- The dynamic type of the `q_controls` / `q_targets` arguments: a
`QuantumRegister`, a plain list of qubits, or any other Python value. -/
inductive QArg where
  | register (qubits : List Nat)
  | list (qubits : List Nat)
  | other
deriving DecidableEq, Repr

/-- The dynamic type of the `q_ancillae` argument, which additionally
admits `None`. -/
inductive AncArg where
  | noneArg
  | register (qubits : List Nat)
  | list (qubits : List Nat)
  | other
deriving DecidableEq, Repr

/-- The qubit list the orchestrator extracts from a control/target argument
(`[qb for qb in q]` for a register, the list itself otherwise); `none` means
the argument has an unsupported type and a `ValueError` is raised. -/
def QArg.asQubits : QArg → Option (List Nat)
  | QArg.register qs => some qs
  | QArg.list qs => some qs
  | QArg.other => none

/-- The qubit list extracted from the ancilla argument; `None` becomes the
empty list. -/
def AncArg.asQubits : AncArg → Option (List Nat)
  | AncArg.noneArg => some []
  | AncArg.register qs => some qs
  | AncArg.list qs => some qs
  | AncArg.other => none

/-- The `for idx in range(2, len(control_qubits))` loop of
`_ccx_v_chain_compute`, recursing over the controls from index 2 on
(`rest`) and carrying `anci_idx`.  Each iteration first checks the
`assert anci_idx + 1 < len(ancillary_qubits)` and, on failure, stops with
the insufficient-ancilla error, keeping the operations already emitted. -/
def computeLoopAux (ancillae : List Nat) : List Nat → Nat → List Op × Option MCMTError
  | [], _ => ([], none)
  | c :: rest, anci_idx =>
    if anci_idx + 1 < ancillae.length then
      let r := computeLoopAux ancillae rest (anci_idx + 1)
      (Op.ccx c (ancillae.getD anci_idx 0) (ancillae.getD (anci_idx + 1) 0) :: r.1, r.2)
    else
      ([], some MCMTError.insufficientAncilla)

/-- `_ccx_v_chain_compute`: emit `ccx(controls[0], controls[1], ancillae[0])`
and then the chain loop.  Subscripting an empty ancilla pool (or a control
list of length below 2, which the orchestrator never passes) raises a Python
`IndexError` before anything is emitted. -/
def ccx_v_chain_compute (control_qubits ancillary_qubits : List Nat) :
    List Op × Option MCMTError :=
  match control_qubits, ancillary_qubits with
  | c0 :: c1 :: rest, a0 :: _ =>
    let r := computeLoopAux ancillary_qubits rest 0
    (Op.ccx c0 c1 a0 :: r.1, r.2)
  | _, _ => ([], some MCMTError.indexError)

/-- `_ccx_v_chain_uncompute`: starting from `anci_idx = len(ancillae) - 1`,
replay the folds with `idx` descending from `k-1` to `2`, then the final
`ccx(controls[0], controls[1], ancillae[anci_idx])`.  The Python loop is
re-indexed by its iteration count `j` (so `idx = k-1-j`,
`anci_idx = a-1-j`); the orchestrator only reaches this function when the
compute chain succeeded, i.e. with `a ≥ k-1 ≥ 1`, where every subscript is
in range and the truncated subtraction below agrees with Python. -/
def ccx_v_chain_uncompute (control_qubits ancillary_qubits : List Nat) : List Op :=
  let k := control_qubits.length
  let a := ancillary_qubits.length
  ((List.range (k - 2)).map (fun j =>
      Op.ccx (control_qubits.getD (k - 1 - j) 0)
             (ancillary_qubits.getD (a - 2 - j) 0)
             (ancillary_qubits.getD (a - 1 - j) 0)))
    ++ [Op.ccx (control_qubits.getD 0 0) (control_qubits.getD 1 0)
          (ancillary_qubits.getD (a - (k - 1)) 0)]

/-- The orchestrator `mcmt`.  `valid` models the external
`self._check_qubit` validator; duplicate detection (`self._check_dups`)
is identity on qubit ids, i.e. `List.Nodup`.  The returned list is what the
call appended to the host circuit (including partial emission when the
compute chain fails), paired with the raised error, if any. -/
def mcmt (valid : Nat → Bool) (q_controls : QArg) (q_ancillae : AncArg)
    (q_targets : QArg) (mode : String) : List Op × Option MCMTError :=
  match QArg.asQubits q_controls with
  | none => ([], some MCMTError.valueErrorControls)
  | some control_qubits =>
    match QArg.asQubits q_targets with
    | none => ([], some MCMTError.valueErrorTargets)
    | some target_qubits =>
      match AncArg.asQubits q_ancillae with
      | none => ([], some MCMTError.valueErrorAncillae)
      | some ancillary_qubits =>
        let all_qubits := control_qubits ++ target_qubits ++ ancillary_qubits
        if ¬ all_qubits.all valid then ([], some MCMTError.invalidQubit)
        else if ¬ all_qubits.Nodup then ([], some MCMTError.duplicateQubit)
        else if control_qubits.length = 1 then
          (target_qubits.map (fun t => Op.cgate (control_qubits.getD 0 0) t), none)
        else if mode = "basic" then
          match ccx_v_chain_compute control_qubits ancillary_qubits with
          | (ops, some e) => (ops, some e)
          | (ops, none) =>
            (ops
              ++ target_qubits.map (fun t =>
                   Op.cgate (ancillary_qubits.getD (ancillary_qubits.length - 1) 0) t)
              ++ ccx_v_chain_uncompute control_qubits ancillary_qubits, none)
        else ([], some MCMTError.unsupportedMode)

/-- The qubit an operation writes. -/
def Op.target : Op → Nat
  | Op.ccx _ _ t => t
  | Op.cgate _ t => t

/-- All qubits an operation reads or writes. -/
def Op.qubits : Op → List Nat
  | Op.ccx c1 c2 t => [c1, c2, t]
  | Op.cgate c t => [c, t]

/-- Whether an operation is a Toffoli fold. -/
def Op.isCcx : Op → Bool
  | Op.ccx _ _ _ => true
  | Op.cgate _ _ => false

/-- Whether an operation is the single-control primitive. -/
def Op.isCgate : Op → Bool
  | Op.ccx _ _ _ => false
  | Op.cgate _ _ => true

/-- Classical boolean semantics of one operation on a state assigning a
boolean to every qubit; `g` is the boolean action of the caller-supplied
primitive on its target. -/
def applyOp (g : Bool → Bool) (s : Nat → Bool) : Op → Nat → Bool
  | Op.ccx c1 c2 t => fun q => if q = t then xor (s t) (s c1 && s c2) else s q
  | Op.cgate c t => fun q => if q = t then (if s c then g (s t) else s t) else s q

/-- Run a list of operations left to right. -/
def runOps (g : Bool → Bool) (ops : List Op) (s : Nat → Bool) : Nat → Bool :=
  ops.foldl (applyOp g) s

/-- The operations `_ccx_v_chain_compute` emits on success, in closed form
(first fold of the two leading controls into `ancillae[0]`, then one fold
per remaining control into the next slot). -/
def chainOps (c0 c1 : Nat) (rest ancillae : List Nat) : List Op :=
  Op.ccx c0 c1 (ancillae.getD 0 0) ::
    (List.range rest.length).map (fun j =>
      Op.ccx (rest.getD j 0) (ancillae.getD j 0) (ancillae.getD (j + 1) 0))

lemma runOps_nil (g : Bool → Bool) (s : Nat → Bool) : runOps g [] s = s := rfl

lemma runOps_cons (g : Bool → Bool) (op : Op) (ops : List Op) (s : Nat → Bool) :
    runOps g (op :: ops) s = runOps g ops (applyOp g s op) := rfl

lemma runOps_append (g : Bool → Bool) (l1 l2 : List Op) (s : Nat → Bool) :
    runOps g (l1 ++ l2) s = runOps g l2 (runOps g l1 s) :=
  List.foldl_append _ _ _ _

lemma applyOp_ne_target (g : Bool → Bool) (s : Nat → Bool) (op : Op) (q : Nat)
    (h : q ≠ op.target) : applyOp g s op q = s q := by
  cases op <;> simp only [applyOp, Op.target] at h ⊢ <;> rw [if_neg h]

lemma runOps_frame (g : Bool → Bool) (ops : List Op) (s : Nat → Bool) (q : Nat)
    (h : ∀ op ∈ ops, op.target ≠ q) : runOps g ops s q = s q := by
  induction ops generalizing s with
  | nil => rfl
  | cons op ops ih =>
    rw [runOps_cons, ih _ fun o ho => h o (List.mem_cons_of_mem _ ho)]
    exact applyOp_ne_target _ _ _ _ (Ne.symm (h op (List.mem_cons_self op _)))

lemma applyOp_agree (g : Bool → Bool) (S : Nat → Prop) (op : Op)
    (hop : ∀ x ∈ op.qubits, S x) (s₁ s₂ : Nat → Bool)
    (hs : ∀ q, S q → s₁ q = s₂ q) :
    ∀ q, S q → applyOp g s₁ op q = applyOp g s₂ op q := by
  intro q hq
  cases op with
  | ccx c1 c2 t =>
    have h1 := hs c1 (hop c1 (by simp [Op.qubits]))
    have h2 := hs c2 (hop c2 (by simp [Op.qubits]))
    have h3 := hs t (hop t (by simp [Op.qubits]))
    simp only [applyOp, h1, h2, h3, hs q hq]
  | cgate c t =>
    have h1 := hs c (hop c (by simp [Op.qubits]))
    have h3 := hs t (hop t (by simp [Op.qubits]))
    simp only [applyOp, h1, h3, hs q hq]

lemma runOps_agree (g : Bool → Bool) (S : Nat → Prop) (ops : List Op)
    (hops : ∀ op ∈ ops, ∀ x ∈ op.qubits, S x) (s₁ s₂ : Nat → Bool)
    (hs : ∀ q, S q → s₁ q = s₂ q) :
    ∀ q, S q → runOps g ops s₁ q = runOps g ops s₂ q := by
  induction ops generalizing s₁ s₂ with
  | nil => exact hs
  | cons op ops ih =>
    intro q hq
    rw [runOps_cons, runOps_cons]
    exact ih (fun o ho => hops o (List.mem_cons_of_mem _ ho)) _ _
      (applyOp_agree g S op (hops op (List.mem_cons_self op _)) s₁ s₂ hs) q hq

lemma applyOp_ccx_invol (g : Bool → Bool) (s : Nat → Bool) (c1 c2 t : Nat)
    (h1 : t ≠ c1) (h2 : t ≠ c2) :
    applyOp g (applyOp g s (Op.ccx c1 c2 t)) (Op.ccx c1 c2 t) = s := by
  funext q
  by_cases hq : q = t
  · subst hq
    simp only [applyOp, if_pos rfl, if_neg (Ne.symm h1), if_neg (Ne.symm h2)]
    cases s q <;> cases s c1 <;> cases s c2 <;> rfl
  · simp only [applyOp, if_neg hq]

lemma runOps_reverse_cancel (g : Bool → Bool) (ops : List Op) (s : Nat → Bool)
    (h : ∀ op ∈ ops, ∃ c1 c2 t, op = Op.ccx c1 c2 t ∧ t ≠ c1 ∧ t ≠ c2) :
    runOps g ops.reverse (runOps g ops s) = s := by
  induction ops generalizing s with
  | nil => rfl
  | cons op ops ih =>
    rw [List.reverse_cons, runOps_cons, runOps_append,
      ih _ fun o ho => h o (List.mem_cons_of_mem _ ho)]
    obtain ⟨c1, c2, t, rfl, h1, h2⟩ := h op (List.mem_cons_self op _)
    show applyOp g (applyOp g s (Op.ccx c1 c2 t)) (Op.ccx c1 c2 t) = s
    exact applyOp_ccx_invol g s c1 c2 t h1 h2

lemma getD_mem_of_lt (l : List Nat) (i : Nat) (h : i < l.length) : l.getD i 0 ∈ l := by
  rw [List.getD_eq_getElem l 0 h]
  exact List.getElem_mem h

lemma getD_ne_of_nodup (l : List Nat) (h : l.Nodup) (i j : Nat)
    (hi : i < l.length) (hj : j < l.length) (hij : i ≠ j) :
    l.getD i 0 ≠ l.getD j 0 := by
  rw [List.getD_eq_getElem l 0 hi, List.getD_eq_getElem l 0 hj]
  intro he
  exact hij ((List.Nodup.getElem_inj_iff h).1 he)

lemma run_cgates_frame (g : Bool → Bool) (ctrl : Nat) (targets : List Nat)
    (s : Nat → Bool) (q : Nat) (hq : q ∉ targets) :
    runOps g (targets.map (fun t => Op.cgate ctrl t)) s q = s q := by
  apply runOps_frame
  intro op hop
  obtain ⟨t, ht, rfl⟩ := List.mem_map.1 hop
  simp only [Op.target]
  intro he
  exact hq (he ▸ ht)

lemma run_cgates_at_mem (g : Bool → Bool) (ctrl : Nat) (targets : List Nat)
    (s : Nat → Bool) (hnd : targets.Nodup) (hc : ctrl ∉ targets) (t : Nat)
    (ht : t ∈ targets) :
    runOps g (targets.map (fun x => Op.cgate ctrl x)) s t
      = if s ctrl then g (s t) else s t := by
  induction targets generalizing s with
  | nil => cases ht
  | cons t' ts ih =>
    rw [List.map_cons, runOps_cons]
    rcases List.mem_cons.1 ht with rfl | hts
    · have hts' : t ∉ ts := (List.nodup_cons.1 hnd).1
      rw [run_cgates_frame g ctrl ts _ t hts']
      simp [applyOp]
    · have hne : t ≠ t' := by
        intro he
        exact (List.nodup_cons.1 hnd).1 (he ▸ hts)
      have hcne : ctrl ≠ t' := by
        intro he
        exact hc (he ▸ List.mem_cons_self ctrl _)
      rw [ih _ (List.nodup_cons.1 hnd).2 (fun hx => hc (List.mem_cons_of_mem _ hx)) hts]
      simp only [applyOp, if_neg hne, if_neg hcne]

lemma reverse_range_map {α : Type} (n : Nat) (f : Nat → α) :
    ((List.range n).map f).reverse = (List.range n).map (fun j => f (n - 1 - j)) := by
  induction n generalizing f with
  | zero => rfl
  | succ n ih =>
    calc ((List.range (n + 1)).map f).reverse
        = ((0 :: (List.range n).map Nat.succ).map f).reverse := by
          rw [List.range_succ_eq_map]
      _ = ((List.range n).map (fun j => f (Nat.succ j))).reverse ++ [f 0] := by
          rw [List.map_cons, List.reverse_cons, List.map_map]
          rfl
      _ = (List.range n).map (fun j => f (Nat.succ (n - 1 - j))) ++ [f 0] := by
          rw [ih (fun j => f (Nat.succ j))]
      _ = (List.range n).map (fun j => f (n + 1 - 1 - j)) ++ [f (n + 1 - 1 - n)] := by
          rw [Nat.add_sub_cancel, Nat.sub_self]
          congr 1
          apply List.map_congr_left
          intro j hj
          have hj' : j < n := List.mem_range.1 hj
          congr 1
          omega
      _ = (List.range (n + 1)).map (fun j => f (n + 1 - 1 - j)) := by
          rw [List.range_succ, List.map_append]
          rfl

lemma computeLoopAux_success (an rest : List Nat) (i : Nat)
    (h : i + rest.length < an.length) :
    computeLoopAux an rest i
      = ((List.range rest.length).map (fun j =>
          Op.ccx (rest.getD j 0) (an.getD (i + j) 0) (an.getD (i + j + 1) 0)), none) := by
  induction rest generalizing i with
  | nil => rfl
  | cons c rest ih =>
    rw [computeLoopAux, if_pos (by simp at h; omega)]
    rw [ih (i + 1) (by simp at h ⊢; omega)]
    simp only [List.length_cons, List.range_succ_eq_map, List.map_cons, List.map_map,
      Prod.mk.injEq, List.getD_cons_zero, Nat.add_zero]
    refine ⟨congrArg _ ?_, trivial⟩
    apply List.map_congr_left
    intro j _
    simp only [Function.comp_apply, List.getD_cons_succ]
    have h1 : i + 1 + j = i + (j + 1) := by omega
    rw [h1]

lemma computeLoopAux_fail (an rest : List Nat) (i : Nat)
    (hlen : an.length ≤ i + rest.length) (hne : rest ≠ []) :
    computeLoopAux an rest i
      = ((List.range (an.length - 1 - i)).map (fun j =>
          Op.ccx (rest.getD j 0) (an.getD (i + j) 0) (an.getD (i + j + 1) 0)),
         some MCMTError.insufficientAncilla) := by
  induction rest generalizing i with
  | nil => cases hne rfl
  | cons c rest ih =>
    by_cases hc : i + 1 < an.length
    · have hrest : rest ≠ [] := by
        intro he
        subst he
        simp at hlen
        omega
      rw [computeLoopAux, if_pos hc, ih (i + 1) (by simp at hlen ⊢; omega) hrest]
      have hd : an.length - 1 - i = (an.length - 1 - (i + 1)) + 1 := by omega
      rw [hd, List.range_succ_eq_map]
      simp only [List.map_cons, List.map_map, Prod.mk.injEq, List.getD_cons_zero,
        Nat.add_zero]
      refine ⟨congrArg _ ?_, trivial⟩
      apply List.map_congr_left
      intro j _
      simp only [Function.comp_apply, List.getD_cons_succ]
      have h1 : i + 1 + j = i + (j + 1) := by omega
      rw [h1]
    · rw [computeLoopAux, if_neg hc]
      have hd : an.length - 1 - i = 0 := by omega
      rw [hd]
      rfl

lemma computeLoopAux_err (an rest : List Nat) (i : Nat) :
    (computeLoopAux an rest i).2 = none
      ∨ (computeLoopAux an rest i).2 = some MCMTError.insufficientAncilla := by
  induction rest generalizing i with
  | nil => exact Or.inl rfl
  | cons c rest ih =>
    rw [computeLoopAux]
    by_cases hc : i + 1 < an.length
    · rw [if_pos hc]
      exact ih (i + 1)
    · rw [if_neg hc]
      exact Or.inr rfl

lemma compute_success (c0 c1 : Nat) (rest an : List Nat)
    (h : rest.length + 1 ≤ an.length) :
    ccx_v_chain_compute (c0 :: c1 :: rest) an = (chainOps c0 c1 rest an, none) := by
  cases an with
  | nil => simp at h
  | cons a0 an' =>
    show (Op.ccx c0 c1 a0 :: (computeLoopAux (a0 :: an') rest 0).1,
        (computeLoopAux (a0 :: an') rest 0).2) = _
    rw [computeLoopAux_success (a0 :: an') rest 0 (by simp at h ⊢; omega)]
    simp only [chainOps, List.getD_cons_zero, Nat.zero_add]

/-- The first `1 + n` operations of the compute chain (`n` loop iterations). -/
def chainOpsN (c0 c1 : Nat) (rest ancillae : List Nat) (n : Nat) : List Op :=
  Op.ccx c0 c1 (ancillae.getD 0 0) ::
    (List.range n).map (fun j =>
      Op.ccx (rest.getD j 0) (ancillae.getD j 0) (ancillae.getD (j + 1) 0))

lemma chainOps_eq_chainOpsN (c0 c1 : Nat) (rest an : List Nat) :
    chainOps c0 c1 rest an = chainOpsN c0 c1 rest an rest.length := rfl

lemma chainOpsN_succ (c0 c1 : Nat) (rest an : List Nat) (n : Nat) :
    chainOpsN c0 c1 rest an (n + 1)
      = chainOpsN c0 c1 rest an n
          ++ [Op.ccx (rest.getD n 0) (an.getD n 0) (an.getD (n + 1) 0)] := by
  simp only [chainOpsN, List.range_succ, List.map_append, List.map_cons, List.map_nil,
    List.cons_append]

lemma chain_run_aux (g : Bool → Bool) (c0 c1 : Nat) (rest an : List Nat) (s : Nat → Bool)
    (hnd : ((c0 :: c1 :: rest) ++ an).Nodup)
    (ha : rest.length < an.length)
    (h0 : ∀ x ∈ an, s x = false) :
    ∀ n, n ≤ rest.length →
      (∀ i, i ≤ n → runOps g (chainOpsN c0 c1 rest an n) s (an.getD i 0)
          = (c0 :: c1 :: rest.take i).all s)
      ∧ (∀ q, (∀ i, i ≤ n → q ≠ an.getD i 0) →
          runOps g (chainOpsN c0 c1 rest an n) s q = s q) := by
  have hdisj : (c0 :: c1 :: rest).Disjoint an := List.disjoint_of_nodup_append hnd
  have hannd : an.Nodup := (List.nodup_append.1 hnd).2.1
  have han_ne : ∀ i j, i < an.length → j < an.length → i ≠ j →
      an.getD i 0 ≠ an.getD j 0 := fun i j hi hj hij => getD_ne_of_nodup an hannd i j hi hj hij
  intro n
  induction n with
  | zero =>
    intro _
    have h0lt : 0 < an.length := lt_of_le_of_lt (Nat.zero_le _) ha
    have hc0 : c0 ≠ an.getD 0 0 := fun he =>
      hdisj (List.mem_cons_self c0 _) (he ▸ getD_mem_of_lt an 0 h0lt)
    have hc1 : c1 ≠ an.getD 0 0 := fun he =>
      hdisj (List.mem_cons_of_mem _ (List.mem_cons_self c1 _))
        (he ▸ getD_mem_of_lt an 0 h0lt)
    constructor
    · intro i hi
      have hi0 : i = 0 := Nat.le_zero.1 hi
      subst hi0
      show applyOp g s (Op.ccx c0 c1 (an.getD 0 0)) (an.getD 0 0) = _
      simp only [applyOp, if_pos rfl]
      rw [h0 _ (getD_mem_of_lt an 0 h0lt), Bool.false_xor]
      simp [List.all_cons]
    · intro q hq
      show applyOp g s (Op.ccx c0 c1 (an.getD 0 0)) q = s q
      exact applyOp_ne_target g s _ q (hq 0 le_rfl)
  | succ n ihn =>
    intro hn1
    obtain ⟨ih1, ih2⟩ := ihn (Nat.le_of_succ_le hn1)
    have hrestn : n < rest.length := hn1
    have hlenn1 : n + 1 < an.length := lt_of_le_of_lt hn1 ha
    have hlenn : n < an.length := lt_trans hrestn ha
    have hrn_mem : rest.getD n 0 ∈ c0 :: c1 :: rest :=
      List.mem_cons_of_mem _ (List.mem_cons_of_mem _ (getD_mem_of_lt rest n hrestn))
    have hctrl_ne_an : ∀ i, i < an.length → rest.getD n 0 ≠ an.getD i 0 :=
      fun i hi he => hdisj hrn_mem (he ▸ getD_mem_of_lt an i hi)
    have hsn_ctrl : runOps g (chainOpsN c0 c1 rest an n) s (rest.getD n 0)
        = s (rest.getD n 0) :=
      ih2 _ fun i hi => hctrl_ne_an i (lt_of_le_of_lt (le_trans hi (Nat.le_succ n)) hlenn1)
    have hsn_an1 : runOps g (chainOpsN c0 c1 rest an n) s (an.getD (n + 1) 0)
        = s (an.getD (n + 1) 0) :=
      ih2 _ fun i hi =>
        han_ne (n + 1) i hlenn1 (lt_of_le_of_lt hi hlenn) (by omega)
    have hs_an1_false : s (an.getD (n + 1) 0) = false :=
      h0 _ (getD_mem_of_lt an (n + 1) hlenn1)
    have hsn_ann : runOps g (chainOpsN c0 c1 rest an n) s (an.getD n 0)
        = (c0 :: c1 :: rest.take n).all s := ih1 n le_rfl
    rw [chainOpsN_succ, ]
    constructor
    · intro i hi
      rw [runOps_append]
      rcases Nat.lt_or_ge i (n + 1) with hlt | hge
      · have hi' : i ≤ n := by omega
        show applyOp g _ (Op.ccx (rest.getD n 0) (an.getD n 0) (an.getD (n + 1) 0))
            (an.getD i 0) = _
        rw [applyOp_ne_target g _ _ _
          (han_ne i (n + 1) (lt_of_le_of_lt hi' hlenn) hlenn1 (by omega))]
        exact ih1 i hi'
      · have hi1 : i = n + 1 := by omega
        subst hi1
        show applyOp g _ (Op.ccx (rest.getD n 0) (an.getD n 0) (an.getD (n + 1) 0))
            (an.getD (n + 1) 0) = _
        simp only [applyOp, if_pos rfl]
        rw [hsn_an1, hs_an1_false, hsn_ctrl, hsn_ann, Bool.false_xor]
        rw [List.getD_eq_getElem rest 0 hrestn,
          ← List.take_concat_get' rest n hrestn]
        simp only [List.all_cons, List.all_append, List.all_cons, List.all_nil,
          Bool.and_true]
        simp [Bool.and_assoc, Bool.and_comm, Bool.and_left_comm]
    · intro q hq
      rw [runOps_append]
      show applyOp g _ (Op.ccx (rest.getD n 0) (an.getD n 0) (an.getD (n + 1) 0)) q = s q
      rw [applyOp_ne_target g _
        (Op.ccx (rest.getD n 0) (an.getD n 0) (an.getD (n + 1) 0)) q (hq (n + 1) le_rfl)]
      exact ih2 q fun i hi => hq i (le_trans hi (Nat.le_succ n))

lemma uncompute_eq_reverse (c0 c1 : Nat) (rest an : List Nat)
    (ha : an.length = rest.length + 1) :
    ccx_v_chain_uncompute (c0 :: c1 :: rest) an = (chainOps c0 c1 rest an).reverse := by
  rw [chainOps, List.reverse_cons, reverse_range_map]
  simp only [ccx_v_chain_uncompute, List.length_cons, List.getD_cons_zero,
    List.getD_cons_succ]
  have hk2 : rest.length + 1 + 1 - 2 = rest.length := by omega
  rw [hk2, ha]
  congr 1
  · apply List.map_congr_left
    intro j hj
    have hj' : j < rest.length := List.mem_range.1 hj
    have e1 : rest.length + 1 + 1 - 1 - j = (rest.length - 1 - j) + 2 := by omega
    have e2 : rest.length + 1 - 2 - j = rest.length - 1 - j := by omega
    have e3 : rest.length + 1 - 1 - j = (rest.length - 1 - j) + 1 := by omega
    rw [e1, e2, e3, List.getD_cons_succ, List.getD_cons_succ]
  · have e4 : rest.length + 1 - (rest.length + 1 + 1 - 1) = 0 := by omega
    rw [e4]

lemma compute_fail (c0 c1 : Nat) (rest an : List Nat) (hne : rest ≠ [])
    (hlen : an.length ≤ rest.length) (h1 : 1 ≤ an.length) :
    ccx_v_chain_compute (c0 :: c1 :: rest) an
      = (chainOpsN c0 c1 rest an (an.length - 1), some MCMTError.insufficientAncilla) := by
  cases an with
  | nil => simp at h1
  | cons a0 an' =>
    show (Op.ccx c0 c1 a0 :: (computeLoopAux (a0 :: an') rest 0).1,
        (computeLoopAux (a0 :: an') rest 0).2) = _
    rw [computeLoopAux_fail (a0 :: an') rest 0 (by simpa using hlen) hne]
    simp only [chainOpsN, List.getD_cons_zero, Nat.zero_add, Nat.sub_zero]

lemma compute_empty_ancillae (c0 c1 : Nat) (rest : List Nat) :
    ccx_v_chain_compute (c0 :: c1 :: rest) [] = ([], some MCMTError.indexError) := rfl

lemma compute_snd_cases (cq aq : List Nat) :
    (ccx_v_chain_compute cq aq).2 = none
      ∨ (ccx_v_chain_compute cq aq).2 = some MCMTError.insufficientAncilla
      ∨ ccx_v_chain_compute cq aq = ([], some MCMTError.indexError) := by
  match cq, aq with
  | [], _ => exact Or.inr (Or.inr rfl)
  | [_], _ => exact Or.inr (Or.inr rfl)
  | _ :: _ :: _, [] => exact Or.inr (Or.inr rfl)
  | c0 :: c1 :: rest, a0 :: an' =>
    rcases computeLoopAux_err (a0 :: an') rest 0 with h | h
    · exact Or.inl h
    · exact Or.inr (Or.inl h)

lemma compute_insufficient_ne_nil (cq aq : List Nat)
    (h : (ccx_v_chain_compute cq aq).2 = some MCMTError.insufficientAncilla) :
    (ccx_v_chain_compute cq aq).1 ≠ [] := by
  match cq, aq with
  | [], _ => simp [ccx_v_chain_compute] at h
  | [_], _ => simp [ccx_v_chain_compute] at h
  | _ :: _ :: _, [] => simp [ccx_v_chain_compute] at h
  | c0 :: c1 :: rest, a0 :: an' => simp [ccx_v_chain_compute]

lemma mcmt_validated (valid : Nat → Bool) (qc : QArg) (qa : AncArg) (qt : QArg)
    (mode : String) (cq tq aq : List Nat)
    (hqc : QArg.asQubits qc = some cq) (hqt : QArg.asQubits qt = some tq)
    (hqa : AncArg.asQubits qa = some aq)
    (hv : (cq ++ tq ++ aq).all valid = true) (hnd : (cq ++ tq ++ aq).Nodup) :
    mcmt valid qc qa qt mode =
      (if cq.length = 1 then (tq.map (fun t => Op.cgate (cq.getD 0 0) t), none)
       else if mode = "basic" then
         match ccx_v_chain_compute cq aq with
         | (ops, some e) => (ops, some e)
         | (ops, none) =>
           (ops ++ tq.map (fun t => Op.cgate (aq.getD (aq.length - 1) 0) t)
             ++ ccx_v_chain_uncompute cq aq, none)
       else ([], some MCMTError.unsupportedMode)) := by
  simp only [mcmt, hqc, hqt, hqa]
  rw [if_neg (not_not_intro hv), if_neg (not_not_intro hnd)]

lemma mcmt_k1 (valid : Nat → Bool) (qc : QArg) (qa : AncArg) (qt : QArg)
    (mode : String) (cq tq aq : List Nat)
    (hqc : QArg.asQubits qc = some cq) (hqt : QArg.asQubits qt = some tq)
    (hqa : AncArg.asQubits qa = some aq)
    (hv : (cq ++ tq ++ aq).all valid = true) (hnd : (cq ++ tq ++ aq).Nodup)
    (hk : cq.length = 1) :
    mcmt valid qc qa qt mode
      = (tq.map (fun t => Op.cgate (cq.getD 0 0) t), none) := by
  rw [mcmt_validated valid qc qa qt mode cq tq aq hqc hqt hqa hv hnd, if_pos hk]

lemma mcmt_badmode (valid : Nat → Bool) (qc : QArg) (qa : AncArg) (qt : QArg)
    (mode : String) (cq tq aq : List Nat)
    (hqc : QArg.asQubits qc = some cq) (hqt : QArg.asQubits qt = some tq)
    (hqa : AncArg.asQubits qa = some aq)
    (hv : (cq ++ tq ++ aq).all valid = true) (hnd : (cq ++ tq ++ aq).Nodup)
    (hk : cq.length ≠ 1) (hm : mode ≠ "basic") :
    mcmt valid qc qa qt mode = ([], some MCMTError.unsupportedMode) := by
  rw [mcmt_validated valid qc qa qt mode cq tq aq hqc hqt hqa hv hnd, if_neg hk,
    if_neg hm]

lemma mcmt_basic_success (valid : Nat → Bool) (qc : QArg) (qa : AncArg) (qt : QArg)
    (c0 c1 : Nat) (rest tq aq : List Nat)
    (hqc : QArg.asQubits qc = some (c0 :: c1 :: rest))
    (hqt : QArg.asQubits qt = some tq) (hqa : AncArg.asQubits qa = some aq)
    (hv : ((c0 :: c1 :: rest) ++ tq ++ aq).all valid = true)
    (hnd : ((c0 :: c1 :: rest) ++ tq ++ aq).Nodup)
    (ha : rest.length + 1 ≤ aq.length) :
    mcmt valid qc qa qt "basic"
      = (chainOps c0 c1 rest aq
          ++ tq.map (fun t => Op.cgate (aq.getD (aq.length - 1) 0) t)
          ++ ccx_v_chain_uncompute (c0 :: c1 :: rest) aq, none) := by
  rw [mcmt_validated valid qc qa qt "basic" (c0 :: c1 :: rest) tq aq hqc hqt hqa hv hnd,
    if_neg (by simp), if_pos rfl, compute_success c0 c1 rest aq ha]

lemma mcmt_basic_insufficient (valid : Nat → Bool) (qc : QArg) (qa : AncArg) (qt : QArg)
    (c0 c1 : Nat) (rest tq aq : List Nat)
    (hqc : QArg.asQubits qc = some (c0 :: c1 :: rest))
    (hqt : QArg.asQubits qt = some tq) (hqa : AncArg.asQubits qa = some aq)
    (hv : ((c0 :: c1 :: rest) ++ tq ++ aq).all valid = true)
    (hnd : ((c0 :: c1 :: rest) ++ tq ++ aq).Nodup)
    (hne : rest ≠ []) (hlen : aq.length ≤ rest.length) (h1 : 1 ≤ aq.length) :
    mcmt valid qc qa qt "basic"
      = (chainOpsN c0 c1 rest aq (aq.length - 1), some MCMTError.insufficientAncilla) := by
  rw [mcmt_validated valid qc qa qt "basic" (c0 :: c1 :: rest) tq aq hqc hqt hqa hv hnd,
    if_neg (by simp), if_pos rfl, compute_fail c0 c1 rest aq hne hlen h1]

lemma mcmt_basic_empty_anc (valid : Nat → Bool) (qc : QArg) (qa : AncArg) (qt : QArg)
    (c0 c1 : Nat) (rest tq : List Nat)
    (hqc : QArg.asQubits qc = some (c0 :: c1 :: rest))
    (hqt : QArg.asQubits qt = some tq) (hqa : AncArg.asQubits qa = some [])
    (hv : ((c0 :: c1 :: rest) ++ tq ++ []).all valid = true)
    (hnd : ((c0 :: c1 :: rest) ++ tq ++ []).Nodup) :
    mcmt valid qc qa qt "basic" = ([], some MCMTError.indexError) := by
  rw [mcmt_validated valid qc qa qt "basic" (c0 :: c1 :: rest) tq [] hqc hqt hqa hv hnd,
    if_neg (by simp), if_pos rfl, compute_empty_ancillae c0 c1 rest]

lemma nodup_parts (cq tq aq : List Nat) (hnd : (cq ++ tq ++ aq).Nodup) :
    cq.Nodup ∧ tq.Nodup ∧ aq.Nodup
      ∧ cq.Disjoint tq ∧ cq.Disjoint aq ∧ tq.Disjoint aq := by
  have h := List.nodup_append.1 hnd
  have h2 := List.nodup_append.1 h.1
  exact ⟨h2.1, h2.2.1, h.2.1, h2.2.2,
    fun a ha hb => h.2.2 (List.mem_append_left _ ha) hb,
    fun a ha hb => h.2.2 (List.mem_append_right _ ha) hb⟩

lemma nodup_controls_anc (cq tq aq : List Nat) (hnd : (cq ++ tq ++ aq).Nodup) :
    (cq ++ aq).Nodup := by
  apply List.Nodup.sublist _ hnd
  rw [List.append_assoc]
  exact List.Sublist.append_left (List.sublist_append_right tq aq) cq

/-- C10: at the public interface, `None` ancillae behave exactly like an empty
ancilla pool, and a controls/targets argument that is neither a list nor a
register — or an ancilla argument that is none of `None`, list, register —
raises the corresponding `ValueError` with nothing emitted, before any qubit
validation (the result is the same for every validator). -/
theorem C10_arg_types :
    (∀ (valid : Nat → Bool) (qa : AncArg) (qt : QArg) (mode : String),
      mcmt valid QArg.other qa qt mode = ([], some MCMTError.valueErrorControls))
    ∧ (∀ (valid : Nat → Bool) (qc : QArg) (cq : List Nat), QArg.asQubits qc = some cq →
        ∀ (qa : AncArg) (mode : String),
          mcmt valid qc qa QArg.other mode = ([], some MCMTError.valueErrorTargets))
    ∧ (∀ (valid : Nat → Bool) (qc : QArg) (cq : List Nat), QArg.asQubits qc = some cq →
        ∀ (qt : QArg) (tq : List Nat), QArg.asQubits qt = some tq →
        ∀ (mode : String),
          mcmt valid qc AncArg.other qt mode = ([], some MCMTError.valueErrorAncillae))
    ∧ (∀ (valid : Nat → Bool) (qc : QArg) (qt : QArg) (mode : String),
        mcmt valid qc AncArg.noneArg qt mode = mcmt valid qc (AncArg.list []) qt mode) := by
  refine ⟨fun valid qa qt mode => rfl, ?_, ?_, ?_⟩
  · intro valid qc cq hqc qa mode
    simp only [mcmt, hqc]
    rfl
  · intro valid qc cq hqc qt tq hqt mode
    simp only [mcmt, hqc, hqt]
    rfl
  · intro valid qc qt mode
    cases qc <;> cases qt <;> rfl

theorem C10_witness :
    mcmt (fun _ => true) (QArg.list [0]) AncArg.noneArg QArg.other "basic"
      = ([], some MCMTError.valueErrorTargets) :=
  C10_arg_types.2.1 (fun _ => true) (QArg.list [0]) [0] rfl AncArg.noneArg "basic"

/-- C9: a call with exactly one control emits one primitive operation per
target, conditioned on the sole control, in target order, and no supplied
ancilla qubit occurs in any emitted operation. -/
theorem C9_single_control (valid : Nat → Bool) (qc : QArg) (qa : AncArg) (qt : QArg)
    (mode : String) (c0 : Nat) (tq aq : List Nat)
    (hqc : QArg.asQubits qc = some [c0]) (hqt : QArg.asQubits qt = some tq)
    (hqa : AncArg.asQubits qa = some aq)
    (hv : ([c0] ++ tq ++ aq).all valid = true) (hnd : ([c0] ++ tq ++ aq).Nodup) :
    mcmt valid qc qa qt mode = (tq.map (fun t => Op.cgate c0 t), none)
    ∧ ∀ x ∈ aq, ∀ op ∈ (mcmt valid qc qa qt mode).1, x ∉ op.qubits := by
  have h := mcmt_k1 valid qc qa qt mode [c0] tq aq hqc hqt hqa hv hnd rfl
  obtain ⟨_, _, _, _, hca, hta⟩ := nodup_parts [c0] tq aq hnd
  refine ⟨h, ?_⟩
  intro x hx op hop hmem
  rw [h] at hop
  obtain ⟨t, ht, rfl⟩ := List.mem_map.1 hop
  simp only [Op.qubits, List.mem_cons, List.not_mem_nil] at hmem
  rcases hmem with rfl | rfl | hf
  · exact hca (List.mem_cons_self x _) hx
  · exact hta ht hx
  · exact hf

theorem C9_witness :
    mcmt (fun _ => true) (QArg.list [5]) (AncArg.list [7]) (QArg.list [6, 8]) "basic"
      = ([Op.cgate 5 6, Op.cgate 5 8], none) :=
  (C9_single_control (fun _ => true) (QArg.list [5]) (AncArg.list [7]) (QArg.list [6, 8])
    "basic" 5 [6, 8] [7] rfl rfl rfl (by decide) (by decide)).1

/-- C6 counterexample: a call with exactly one control and an unsupported mode
does not fail — it emits the single-control gate and returns no error, because
the degenerate-case return precedes the mode check. -/
theorem C6_counterexample :
    mcmt (fun _ => true) (QArg.list [0]) AncArg.noneArg (QArg.list [1]) "other"
      = ([Op.cgate 0 1], none) := by decide

/-- C6 amended: for calls that pass argument and qubit validation and do not
have exactly one control, any mode other than "basic" fails with the
unsupported-mode error and emits nothing; with exactly one control the mode
is never examined. -/
theorem C6_unsupported_mode (valid : Nat → Bool) (qc : QArg) (qa : AncArg) (qt : QArg)
    (mode : String) (cq tq aq : List Nat)
    (hqc : QArg.asQubits qc = some cq) (hqt : QArg.asQubits qt = some tq)
    (hqa : AncArg.asQubits qa = some aq)
    (hv : (cq ++ tq ++ aq).all valid = true) (hnd : (cq ++ tq ++ aq).Nodup)
    (hk : cq.length ≠ 1) (hm : mode ≠ "basic") :
    mcmt valid qc qa qt mode = ([], some MCMTError.unsupportedMode) :=
  mcmt_badmode valid qc qa qt mode cq tq aq hqc hqt hqa hv hnd hk hm

theorem C6_witness :
    mcmt (fun _ => true) (QArg.list [0, 1]) (AncArg.list [2]) (QArg.list [3]) "advanced"
      = ([], some MCMTError.unsupportedMode) :=
  C6_unsupported_mode (fun _ => true) (QArg.list [0, 1]) (AncArg.list [2]) (QArg.list [3])
    "advanced" [0, 1] [3] [2] rfl rfl rfl (by decide) (by decide) (by decide) (by decide)

/-- C3 counterexample: with k = 3 controls and exactly k − 2 = 1 ancilla —
which the claim says must be accepted — the call fails with the
insufficient-ancilla error. -/
theorem C3_counterexample :
    (mcmt (fun _ => true) (QArg.list [0, 1, 2]) (AncArg.list [3]) (QArg.list [4])
      "basic").2 = some MCMTError.insufficientAncilla
    ∧ ([3] : List Nat).length = ([0, 1, 2] : List Nat).length - 2 := by decide

/-- C3 amended: for validated calls with k ≥ 2 controls and mode "basic", the
insufficient-ancilla error occurs exactly when 1 ≤ |ancillae| ≤ k − 2; a pool
with |ancillae| ≥ k − 1 is accepted and the call completes without error; an
empty pool fails with an index error instead. -/
theorem C3_ancilla_threshold (valid : Nat → Bool) (qc : QArg) (qa : AncArg) (qt : QArg)
    (cq tq aq : List Nat)
    (hqc : QArg.asQubits qc = some cq) (hqt : QArg.asQubits qt = some tq)
    (hqa : AncArg.asQubits qa = some aq)
    (hv : (cq ++ tq ++ aq).all valid = true) (hnd : (cq ++ tq ++ aq).Nodup)
    (hk : 2 ≤ cq.length) :
    ((mcmt valid qc qa qt "basic").2 = some MCMTError.insufficientAncilla
        ↔ (1 ≤ aq.length ∧ aq.length ≤ cq.length - 2))
    ∧ (cq.length - 1 ≤ aq.length → (mcmt valid qc qa qt "basic").2 = none)
    ∧ (aq.length = 0 → (mcmt valid qc qa qt "basic").2 = some MCMTError.indexError) := by
  cases cq with
  | nil => simp at hk
  | cons c0 cq1 =>
    cases cq1 with
    | nil => simp at hk
    | cons c1 rest =>
      rcases Nat.lt_or_ge aq.length 1 with h0 | h1
      · have haq : aq = [] := List.length_eq_zero.1 (by omega)
        subst haq
        rw [mcmt_basic_empty_anc valid qc qa qt c0 c1 rest tq hqc hqt hqa hv hnd]
        refine ⟨?_, ?_, fun _ => rfl⟩
        · constructor
          · intro h
            simp at h
          · rintro ⟨ha1, _⟩
            simp at ha1
        · intro hlen
          simp only [List.length_cons, List.length_nil] at hlen
          omega
      · rcases Nat.lt_or_ge rest.length aq.length with h2 | h2
        · rw [mcmt_basic_success valid qc qa qt c0 c1 rest tq aq hqc hqt hqa hv hnd
            (by omega)]
          refine ⟨?_, fun _ => rfl, ?_⟩
          · constructor
            · intro h
              simp at h
            · rintro ⟨-, ha2⟩
              simp only [List.length_cons] at ha2
              omega
          · intro h0'
            omega
        · have hne : rest ≠ [] := by
            intro he
            subst he
            simp only [List.length_nil] at h2
            omega
          rw [mcmt_basic_insufficient valid qc qa qt c0 c1 rest tq aq hqc hqt hqa hv hnd
            hne h2 h1]
          refine ⟨?_, ?_, ?_⟩
          · constructor
            · intro _
              exact ⟨h1, by simp only [List.length_cons]; omega⟩
            · intro _
              rfl
          · intro hlen
            exfalso
            simp only [List.length_cons] at hlen
            omega
          · intro h0'
            omega

theorem C3_witness :
    (mcmt (fun _ => true) (QArg.list [0, 1]) (AncArg.list [2]) (QArg.list [3])
      "basic").2 = none :=
  (C3_ancilla_threshold (fun _ => true) (QArg.list [0, 1]) (AncArg.list [2])
    (QArg.list [3]) [0, 1] [3] [2] rfl rfl rfl (by decide) (by decide)
    (by decide)).2.1 (by decide)

lemma mcmt_result_dichotomy (valid : Nat → Bool) (qc : QArg) (qa : AncArg) (qt : QArg)
    (mode : String) :
    (mcmt valid qc qa qt mode).2 = none
    ∨ ((mcmt valid qc qa qt mode).2 = some MCMTError.insufficientAncilla
        ∧ (mcmt valid qc qa qt mode).1 ≠ [])
    ∨ ((mcmt valid qc qa qt mode).1 = []
        ∧ (mcmt valid qc qa qt mode).2 ≠ some MCMTError.insufficientAncilla) := by
  cases hqc : QArg.asQubits qc with
  | none =>
    right; right
    simp [mcmt, hqc]
  | some cq =>
    cases hqt : QArg.asQubits qt with
    | none =>
      right; right
      simp [mcmt, hqc, hqt]
    | some tq =>
      cases hqa : AncArg.asQubits qa with
      | none =>
        right; right
        simp [mcmt, hqc, hqt, hqa]
      | some aq =>
        by_cases hv : (cq ++ tq ++ aq).all valid = true
        · by_cases hnd : (cq ++ tq ++ aq).Nodup
          · rw [mcmt_validated valid qc qa qt mode cq tq aq hqc hqt hqa hv hnd]
            by_cases hk : cq.length = 1
            · rw [if_pos hk]
              exact Or.inl rfl
            · rw [if_neg hk]
              by_cases hm : mode = "basic"
              · rw [if_pos hm]
                rcases hcomp : ccx_v_chain_compute cq aq with ⟨ops, oerr⟩
                cases oerr with
                | none => exact Or.inl rfl
                | some e =>
                  rcases compute_snd_cases cq aq with hc | hc | hc
                  · rw [hcomp] at hc
                    simp at hc
                  · rw [hcomp] at hc
                    simp only at hc
                    have he : e = MCMTError.insufficientAncilla := by
                      injection hc
                    right; left
                    subst he
                    refine ⟨rfl, ?_⟩
                    have := compute_insufficient_ne_nil cq aq (by rw [hcomp])
                    rw [hcomp] at this
                    exact this
                  · rw [hcomp] at hc
                    have h1 : ops = [] := congrArg Prod.fst hc
                    have h2 : e = MCMTError.indexError := by
                      have := congrArg Prod.snd hc
                      simpa using this
                    right; right
                    subst h1
                    subst h2
                    exact ⟨rfl, by simp⟩
              · rw [if_neg hm]
                right; right
                exact ⟨rfl, by simp⟩
          · right; right
            simp only [mcmt, hqc, hqt, hqa]
            rw [if_neg (not_not_intro hv), if_pos hnd]
            exact ⟨rfl, by simp⟩
        · right; right
          simp only [mcmt, hqc, hqt, hqa]
          rw [if_pos hv]
          exact ⟨rfl, by simp⟩

/-- C4 counterexample: a call failing with the insufficient-ancilla error has
already emitted the first compute fold, so the output sequence is not left
unchanged. -/
theorem C4_counterexample :
    (mcmt (fun _ => true) (QArg.list [0, 1, 2]) (AncArg.list [3]) (QArg.list [4])
      "basic").2 = some MCMTError.insufficientAncilla
    ∧ (mcmt (fun _ => true) (QArg.list [0, 1, 2]) (AncArg.list [3]) (QArg.list [4])
      "basic").1 = [Op.ccx 0 1 3] := by decide

/-- C4 amended: every failing call leaves the output sequence untouched except
the insufficient-ancilla failure, which is always raised only after at least
the first compute fold has been emitted. -/
theorem C4_all_or_nothing (valid : Nat → Bool) (qc : QArg) (qa : AncArg) (qt : QArg)
    (mode : String) (e : MCMTError)
    (h : (mcmt valid qc qa qt mode).2 = some e) :
    (e ≠ MCMTError.insufficientAncilla → (mcmt valid qc qa qt mode).1 = [])
    ∧ (e = MCMTError.insufficientAncilla → (mcmt valid qc qa qt mode).1 ≠ []) := by
  rcases mcmt_result_dichotomy valid qc qa qt mode with h0 | ⟨h1, h2⟩ | ⟨h1, h2⟩
  · rw [h0] at h
    cases h
  · rw [h1] at h
    have he : e = MCMTError.insufficientAncilla := by
      injection h with h'
      exact h'.symm
    subst he
    exact ⟨fun hne => absurd rfl hne, fun _ => h2⟩
  · constructor
    · intro _
      exact h1
    · intro he
      subst he
      exact absurd h h2

theorem C4_witness :
    (mcmt (fun _ => true) (QArg.list [0, 1]) (AncArg.list [2]) (QArg.list [3])
      "wrong").1 = [] :=
  (C4_all_or_nothing (fun _ => true) (QArg.list [0, 1]) (AncArg.list [2])
    (QArg.list [3]) "wrong" MCMTError.unsupportedMode (by decide)).1 (by decide)

lemma chainOps_length (c0 c1 : Nat) (rest an : List Nat) :
    (chainOps c0 c1 rest an).length = rest.length + 1 := by
  simp [chainOps]

lemma chainOps_all_ccx (c0 c1 : Nat) (rest an : List Nat) :
    (chainOps c0 c1 rest an).all Op.isCcx = true := by
  rw [List.all_eq_true]
  intro op hop
  rcases List.mem_cons.1 hop with rfl | hmap
  · rfl
  · obtain ⟨j, _, rfl⟩ := List.mem_map.1 hmap
    rfl

lemma uncompute_length (cq aq : List Nat) :
    (ccx_v_chain_uncompute cq aq).length = cq.length - 2 + 1 := by
  simp [ccx_v_chain_uncompute]

lemma uncompute_all_ccx (cq aq : List Nat) :
    (ccx_v_chain_uncompute cq aq).all Op.isCcx = true := by
  rw [List.all_eq_true]
  intro op hop
  rcases List.mem_append.1 hop with hmap | hlast
  · obtain ⟨j, _, rfl⟩ := List.mem_map.1 hmap
    rfl
  · rcases List.mem_singleton.1 hlast with rfl
    rfl

lemma countP_of_all_ccx (l : List Op) (h : l.all Op.isCcx = true) :
    l.countP Op.isCcx = l.length ∧ l.countP Op.isCgate = 0 := by
  constructor
  · exact List.countP_eq_length.2 fun a ha => List.all_eq_true.1 h a ha
  · refine List.countP_eq_zero.2 fun a ha => ?_
    have hccx := List.all_eq_true.1 h a ha
    cases a with
    | ccx c1 c2 t => simp [Op.isCgate]
    | cgate c t => simp [Op.isCcx] at hccx

lemma countP_cgates (ctrl : Nat) (tq : List Nat) :
    (tq.map (fun t => Op.cgate ctrl t)).countP Op.isCgate = tq.length
    ∧ (tq.map (fun t => Op.cgate ctrl t)).countP Op.isCcx = 0 := by
  constructor
  · rw [List.countP_eq_length.2, List.length_map]
    intro a ha
    obtain ⟨t, _, rfl⟩ := List.mem_map.1 ha
    rfl
  · refine List.countP_eq_zero.2 fun a ha => ?_
    obtain ⟨t, _, rfl⟩ := List.mem_map.1 ha
    simp [Op.isCcx]

lemma filter_cgate_of_all_ccx (l : List Op) (h : l.all Op.isCcx = true) :
    l.filter Op.isCgate = [] := by
  rw [List.filter_eq_nil_iff]
  intro a ha
  have hccx := List.all_eq_true.1 h a ha
  cases a with
  | ccx c1 c2 t => simp [Op.isCgate]
  | cgate c t => simp [Op.isCcx] at hccx

lemma filter_cgate_map (ctrl : Nat) (tq : List Nat) :
    (tq.map (fun t => Op.cgate ctrl t)).filter Op.isCgate
      = tq.map (fun t => Op.cgate ctrl t) := by
  rw [List.filter_eq_self]
  intro a ha
  obtain ⟨t, _, rfl⟩ := List.mem_map.1 ha
  rfl

/-- C5 counterexample: for k = 2 controls the claim predicts 2(k−2) = 0 chain
folds, but the emitted sequence contains two Toffoli folds. -/
theorem C5_counterexample :
    (mcmt (fun _ => true) (QArg.list [0, 1]) (AncArg.list [2]) (QArg.list [3])
      "basic").1.countP Op.isCcx
      ≠ 2 * (([0, 1] : List Nat).length - 2) := by decide

/-- C5 amended: a successful k = 1 call emits exactly one primitive per target
and nothing else; a successful k ≥ 2 basic call emits exactly 2(k−1) chain
folds plus the m target-conditioned primitives, ordered as all compute folds,
then the per-target primitives, then all uncompute folds. -/
theorem C5_gate_counts (valid : Nat → Bool) (qc : QArg) (qa : AncArg) (qt : QArg)
    (mode : String) (cq tq aq : List Nat)
    (hqc : QArg.asQubits qc = some cq) (hqt : QArg.asQubits qt = some tq)
    (hqa : AncArg.asQubits qa = some aq)
    (hv : (cq ++ tq ++ aq).all valid = true) (hnd : (cq ++ tq ++ aq).Nodup) :
    (cq.length = 1 →
      mcmt valid qc qa qt mode = (tq.map (fun t => Op.cgate (cq.getD 0 0) t), none))
    ∧ (2 ≤ cq.length → cq.length - 1 ≤ aq.length →
      ∃ l1 l2 l3, (mcmt valid qc qa qt "basic").1 = l1 ++ l2 ++ l3
        ∧ l1.length = cq.length - 1 ∧ l1.all Op.isCcx = true
        ∧ l2 = tq.map (fun t => Op.cgate (aq.getD (aq.length - 1) 0) t)
        ∧ l3.length = cq.length - 1 ∧ l3.all Op.isCcx = true
        ∧ (mcmt valid qc qa qt "basic").2 = none
        ∧ (mcmt valid qc qa qt "basic").1.countP Op.isCcx = 2 * (cq.length - 1)
        ∧ (mcmt valid qc qa qt "basic").1.countP Op.isCgate = tq.length) := by
  constructor
  · intro hk
    exact mcmt_k1 valid qc qa qt mode cq tq aq hqc hqt hqa hv hnd hk
  · intro hk2 ha
    cases cq with
    | nil => simp at hk2
    | cons c0 cq1 =>
      cases cq1 with
      | nil => simp at hk2
      | cons c1 rest =>
        have ha' : rest.length + 1 ≤ aq.length := by
          simp only [List.length_cons] at ha
          omega
        have hE := mcmt_basic_success valid qc qa qt c0 c1 rest tq aq hqc hqt hqa hv hnd ha'
        refine ⟨chainOps c0 c1 rest aq,
          tq.map (fun t => Op.cgate (aq.getD (aq.length - 1) 0) t),
          ccx_v_chain_uncompute (c0 :: c1 :: rest) aq, ?_, ?_, ?_, rfl, ?_, ?_, ?_, ?_, ?_⟩
        · rw [hE]
        · rw [chainOps_length]
          simp only [List.length_cons]
          omega
        · exact chainOps_all_ccx c0 c1 rest aq
        · rw [uncompute_length]
          simp only [List.length_cons]
          omega
        · exact uncompute_all_ccx (c0 :: c1 :: rest) aq
        · rw [hE]
        · rw [hE]
          show (chainOps c0 c1 rest aq ++ _ ++ ccx_v_chain_uncompute _ aq).countP _ = _
          rw [List.countP_append, List.countP_append]
          rw [(countP_of_all_ccx _ (chainOps_all_ccx c0 c1 rest aq)).1,
            (countP_cgates (aq.getD (aq.length - 1) 0) tq).2,
            (countP_of_all_ccx _ (uncompute_all_ccx (c0 :: c1 :: rest) aq)).1,
            chainOps_length, uncompute_length]
          simp only [List.length_cons]
          omega
        · rw [hE]
          show (chainOps c0 c1 rest aq ++ _ ++ ccx_v_chain_uncompute _ aq).countP _ = _
          rw [List.countP_append, List.countP_append]
          rw [(countP_of_all_ccx _ (chainOps_all_ccx c0 c1 rest aq)).2,
            (countP_cgates (aq.getD (aq.length - 1) 0) tq).1,
            (countP_of_all_ccx _ (uncompute_all_ccx (c0 :: c1 :: rest) aq)).2]
          omega

theorem C5_witness :
    (mcmt (fun _ => true) (QArg.list [0, 1]) (AncArg.list [2]) (QArg.list [3])
      "basic").1.countP Op.isCcx = 2 * (([0, 1] : List Nat).length - 1) := by
  obtain ⟨l1, l2, l3, h⟩ := (C5_gate_counts (fun _ => true) (QArg.list [0, 1])
    (AncArg.list [2]) (QArg.list [3]) "basic" [0, 1] [3] [2] rfl rfl rfl
    (by decide) (by decide)).2 (by decide) (by decide)
  exact h.2.2.2.2.2.2.2.1

/-- C7 counterexample: with k = 2 controls and a pool of two ancillae, the
per-target primitive is conditioned on qubit 3 — the last ancilla of the
pool — while the last ancilla written by the compute chain is qubit 2. -/
theorem C7_counterexample :
    ((mcmt (fun _ => true) (QArg.list [0, 1]) (AncArg.list [2, 3]) (QArg.list [4])
      "basic").1.filter Op.isCgate) = [Op.cgate 3 4]
    ∧ ([2, 3] : List Nat).getD (([0, 1] : List Nat).length - 2) 0 = 2
    ∧ Op.cgate 3 4 ≠ Op.cgate 2 4 := by decide

/-- C7 amended: in every successful k ≥ 2 basic call the per-target primitives
are conditioned on the last ancilla of the supplied pool (`ancillae[a-1]`),
which coincides with the last ancilla written by the chain only when the pool
has exactly k − 1 ancillae. -/
theorem C7_target_control (valid : Nat → Bool) (qc : QArg) (qa : AncArg) (qt : QArg)
    (c0 c1 : Nat) (rest tq aq : List Nat)
    (hqc : QArg.asQubits qc = some (c0 :: c1 :: rest))
    (hqt : QArg.asQubits qt = some tq) (hqa : AncArg.asQubits qa = some aq)
    (hv : ((c0 :: c1 :: rest) ++ tq ++ aq).all valid = true)
    (hnd : ((c0 :: c1 :: rest) ++ tq ++ aq).Nodup)
    (ha : rest.length + 1 ≤ aq.length) :
    ((mcmt valid qc qa qt "basic").1.filter Op.isCgate)
      = tq.map (fun t => Op.cgate (aq.getD (aq.length - 1) 0) t) := by
  rw [mcmt_basic_success valid qc qa qt c0 c1 rest tq aq hqc hqt hqa hv hnd ha]
  show (chainOps c0 c1 rest aq ++ _ ++ ccx_v_chain_uncompute _ aq).filter _ = _
  rw [List.filter_append, List.filter_append,
    filter_cgate_of_all_ccx _ (chainOps_all_ccx c0 c1 rest aq),
    filter_cgate_map (aq.getD (aq.length - 1) 0) tq,
    filter_cgate_of_all_ccx _ (uncompute_all_ccx (c0 :: c1 :: rest) aq)]
  simp

theorem C7_witness :
    ((mcmt (fun _ => true) (QArg.list [0, 1]) (AncArg.list [2]) (QArg.list [3])
      "basic").1.filter Op.isCgate)
      = ([3] : List Nat).map (fun t =>
          Op.cgate (([2] : List Nat).getD (([2] : List Nat).length - 1) 0) t) :=
  C7_target_control (fun _ => true) (QArg.list [0, 1]) (AncArg.list [2])
    (QArg.list [3]) 0 1 [] [3] [2] rfl rfl rfl (by decide) (by decide) (by decide)

lemma chainOps_good (c0 c1 : Nat) (rest an : List Nat)
    (hnd : ((c0 :: c1 :: rest) ++ an).Nodup) (ha : rest.length < an.length) :
    ∀ op ∈ chainOps c0 c1 rest an,
      ∃ x y tt, op = Op.ccx x y tt ∧ tt ∈ an ∧ tt ≠ x ∧ tt ≠ y
        ∧ x ∈ c0 :: c1 :: rest ∧ (y ∈ c0 :: c1 :: rest ∨ y ∈ an) := by
  have hdisj := List.disjoint_of_nodup_append hnd
  have hannd : an.Nodup := (List.nodup_append.1 hnd).2.1
  intro op hop
  rcases List.mem_cons.1 hop with rfl | hmap
  · have h0lt : 0 < an.length := by omega
    refine ⟨c0, c1, an.getD 0 0, rfl, getD_mem_of_lt an 0 h0lt, ?_, ?_,
      List.mem_cons_self c0 _,
      Or.inl (List.mem_cons_of_mem _ (List.mem_cons_self c1 _))⟩
    · intro he
      exact hdisj (List.mem_cons_self c0 _) (he ▸ getD_mem_of_lt an 0 h0lt)
    · intro he
      exact hdisj (List.mem_cons_of_mem _ (List.mem_cons_self c1 _))
        (he ▸ getD_mem_of_lt an 0 h0lt)
  · obtain ⟨j, hjmem, rfl⟩ := List.mem_map.1 hmap
    have hj : j < rest.length := List.mem_range.1 hjmem
    have hj1 : j + 1 < an.length := by omega
    refine ⟨rest.getD j 0, an.getD j 0, an.getD (j + 1) 0, rfl,
      getD_mem_of_lt an (j + 1) hj1, ?_, ?_,
      List.mem_cons_of_mem _ (List.mem_cons_of_mem _ (getD_mem_of_lt rest j hj)),
      Or.inr (getD_mem_of_lt an j (by omega))⟩
    · intro he
      exact hdisj
        (List.mem_cons_of_mem _ (List.mem_cons_of_mem _ (getD_mem_of_lt rest j hj)))
        (he ▸ getD_mem_of_lt an (j + 1) hj1)
    · exact getD_ne_of_nodup an hannd (j + 1) j hj1 (by omega) (by omega)

/-- C8 counterexample: for k = 3 with controls 0,1 true and control 2 false,
after the compute chain the ancilla at index k − 3 = 0 (qubit 3) holds `true`
although the AND of all three controls is `false`; the AND actually lands on
index k − 2. -/
theorem C8_counterexample :
    runOps Bool.not (ccx_v_chain_compute [0, 1, 2] [3, 4]).1
        (fun q => decide (q < 2)) (([3, 4] : List Nat).getD 0 0) = true
    ∧ ([0, 1, 2] : List Nat).all (fun q => decide (q < 2)) = false
    ∧ ([3, 4] : List Nat).getD (([0, 1, 2] : List Nat).length - 3) 0
        = ([3, 4] : List Nat).getD 0 0 := by decide

/-- C8 amended: the compute chain emits the stated fold structure, and with all
ancillae initially zero `ancillae[k-2]` — the last one touched — holds the
logical AND of all k controls, while every ancilla at an index beyond k − 2
keeps its value. -/
theorem C8_compute_chain (g : Bool → Bool) (c0 c1 : Nat) (rest an : List Nat)
    (s : Nat → Bool)
    (hnd : ((c0 :: c1 :: rest) ++ an).Nodup)
    (ha : rest.length + 1 ≤ an.length)
    (h0 : ∀ x ∈ an, s x = false) :
    ccx_v_chain_compute (c0 :: c1 :: rest) an = (chainOps c0 c1 rest an, none)
    ∧ runOps g (ccx_v_chain_compute (c0 :: c1 :: rest) an).1 s
        (an.getD ((c0 :: c1 :: rest).length - 2) 0) = (c0 :: c1 :: rest).all s
    ∧ (∀ i, (c0 :: c1 :: rest).length - 2 < i → i < an.length →
        runOps g (ccx_v_chain_compute (c0 :: c1 :: rest) an).1 s (an.getD i 0)
          = s (an.getD i 0)) := by
  have hC := compute_success c0 c1 rest an ha
  have hlt : rest.length < an.length := by omega
  have haux := chain_run_aux g c0 c1 rest an s hnd hlt h0 rest.length le_rfl
  refine ⟨hC, ?_, ?_⟩
  · rw [hC]
    show runOps g (chainOps c0 c1 rest an) s _ = _
    rw [chainOps_eq_chainOpsN]
    simp only [List.length_cons]
    have hidx : rest.length + 1 + 1 - 2 = rest.length := by omega
    rw [hidx, haux.1 rest.length le_rfl, List.take_length]
  · intro i hgt hlt'
    rw [hC]
    show runOps g (chainOps c0 c1 rest an) s _ = _
    rw [chainOps_eq_chainOpsN]
    apply haux.2
    intro i' hi' he
    simp only [List.length_cons] at hgt
    exact getD_ne_of_nodup an ((List.nodup_append.1 hnd).2.1) i i' hlt' (by omega)
      (by omega) he

theorem C8_witness :
    runOps Bool.not (ccx_v_chain_compute [0, 1, 2] [3, 4]).1 (fun q => decide (q < 3))
      (([3, 4] : List Nat).getD (([0, 1, 2] : List Nat).length - 2) 0)
      = ([0, 1, 2] : List Nat).all (fun q => decide (q < 3)) :=
  (C8_compute_chain Bool.not 0 1 [2] [3, 4] (fun q => decide (q < 3)) (by decide)
    (by decide) (by decide)).2.1

/-- C1 counterexample: k = 2 controls both true, ancilla pool of two (one more
than the chain uses — still a valid pool: the call succeeds), target 4 with
primitive `not`.  The claim demands the target end as `not false = true`, but
the per-target gate is conditioned on the untouched pool-last ancilla, so the
target keeps its initial value `false`. -/
theorem C1_counterexample :
    runOps Bool.not (mcmt (fun _ => true) (QArg.list [0, 1]) (AncArg.list [2, 3])
        (QArg.list [4]) "basic").1 (fun q => decide (q < 2)) 4
      ≠ (if ([0, 1] : List Nat).all (fun q => decide (q < 2))
          then Bool.not ((fun q : Nat => decide (q < 2)) 4)
          else (fun q : Nat => decide (q < 2)) 4) := by decide

/-- C1 amended: for validated basic calls with k ≥ 1 controls, ancillae
initially zero, and — when k ≥ 2 — a pool of exactly k − 1 ancillae, the
boolean effect on every target is: apply the primitive if and only if all
control values are true. -/
theorem C1_mcmt_correctness (g : Bool → Bool) (valid : Nat → Bool)
    (qc : QArg) (qa : AncArg) (qt : QArg) (cq tq aq : List Nat) (s : Nat → Bool)
    (hqc : QArg.asQubits qc = some cq) (hqt : QArg.asQubits qt = some tq)
    (hqa : AncArg.asQubits qa = some aq)
    (hv : (cq ++ tq ++ aq).all valid = true) (hnd : (cq ++ tq ++ aq).Nodup)
    (hk : 1 ≤ cq.length)
    (ha : 2 ≤ cq.length → aq.length = cq.length - 1)
    (h0 : ∀ x ∈ aq, s x = false)
    (t : Nat) (ht : t ∈ tq) :
    runOps g (mcmt valid qc qa qt "basic").1 s t
      = if cq.all s then g (s t) else s t := by
  obtain ⟨hcnd, htnd, hand, hct, hca, hta⟩ := nodup_parts cq tq aq hnd
  cases cq with
  | nil => simp at hk
  | cons c0 cq1 =>
    cases cq1 with
    | nil =>
      rw [mcmt_k1 valid qc qa qt "basic" [c0] tq aq hqc hqt hqa hv hnd rfl]
      show runOps g (tq.map (fun x => Op.cgate c0 x)) s t = _
      rw [run_cgates_at_mem g c0 tq s htnd
        (fun hc => hct (List.mem_cons_self c0 _) hc) t ht]
      simp [List.all_cons]
    | cons c1 rest =>
      have ha' : aq.length = rest.length + 1 := by
        have := ha (by simp)
        simpa using this
      rw [mcmt_basic_success valid qc qa qt c0 c1 rest tq aq hqc hqt hqa hv hnd
        (by omega)]
      show runOps g (chainOps c0 c1 rest aq
          ++ tq.map (fun x => Op.cgate (aq.getD (aq.length - 1) 0) x)
          ++ ccx_v_chain_uncompute (c0 :: c1 :: rest) aq) s t = _
      rw [runOps_append, runOps_append, uncompute_eq_reverse c0 c1 rest aq ha']
      have hcontrols_anc : ((c0 :: c1 :: rest) ++ aq).Nodup :=
        nodup_controls_anc (c0 :: c1 :: rest) tq aq hnd
      have hgood := chainOps_good c0 c1 rest aq hcontrols_anc (by omega)
      have haux := chain_run_aux g c0 c1 rest aq s hcontrols_anc (by omega) h0
        rest.length le_rfl
      rw [runOps_frame g ((chainOps c0 c1 rest aq).reverse) _ t ?frame]
      case frame =>
        intro op hop
        rw [List.mem_reverse] at hop
        obtain ⟨x, y, tt, rfl, httan, -, -, -, -⟩ := hgood op hop
        show tt ≠ t
        intro he
        exact hta ht (he ▸ httan)
      have hctrl_mem : aq.getD (aq.length - 1) 0 ∈ aq :=
        getD_mem_of_lt aq _ (by omega)
      have hctrl_notin_tq : aq.getD (aq.length - 1) 0 ∉ tq :=
        fun hmem => hta hmem hctrl_mem
      rw [run_cgates_at_mem g _ tq _ htnd hctrl_notin_tq t ht]
      have hs1t : runOps g (chainOps c0 c1 rest aq) s t = s t := by
        rw [chainOps_eq_chainOpsN]
        apply haux.2
        intro i hi he
        exact hta ht (he ▸ getD_mem_of_lt aq i (by omega))
      have hs1ctrl : runOps g (chainOps c0 c1 rest aq) s (aq.getD (aq.length - 1) 0)
          = (c0 :: c1 :: rest).all s := by
        have hidx : aq.length - 1 = rest.length := by omega
        rw [chainOps_eq_chainOpsN, hidx, haux.1 rest.length le_rfl, List.take_length]
      rw [hs1t, hs1ctrl]

theorem C1_witness :
    runOps Bool.not (mcmt (fun _ => true) (QArg.list [0, 1]) (AncArg.list [2])
        (QArg.list [3]) "basic").1 (fun q => decide (q < 2)) 3
      = (if ([0, 1] : List Nat).all (fun q => decide (q < 2))
          then Bool.not ((fun q : Nat => decide (q < 2)) 3)
          else (fun q : Nat => decide (q < 2)) 3) :=
  C1_mcmt_correctness Bool.not (fun _ => true) (QArg.list [0, 1]) (AncArg.list [2])
    (QArg.list [3]) [0, 1] [3] [2] (fun q => decide (q < 2)) rfl rfl rfl (by decide)
    (by decide) (by decide) (fun _ => by decide) (by decide) 3 (by decide)

/-- C2 counterexample: k = 2 controls both true with a pool of two ancillae —
a call that succeeds — leaves ancilla 2 flipped to `true`: the uncompute pass
starts from the end of the pool and undoes the wrong slot. -/
theorem C2_counterexample :
    runOps Bool.not (mcmt (fun _ => true) (QArg.list [0, 1]) (AncArg.list [2, 3])
        (QArg.list [4]) "basic").1 (fun q => decide (q < 2)) 2
      ≠ (fun q : Nat => decide (q < 2)) 2 := by decide

/-- C2 amended: for validated basic calls with k ≥ 2 controls and a pool of
exactly k − 1 ancillae, the full emitted sequence returns every ancilla to the
value it had before the call, for every initial state (in particular for every
control assignment). -/
theorem C2_ancilla_roundtrip (g : Bool → Bool) (valid : Nat → Bool)
    (qc : QArg) (qa : AncArg) (qt : QArg) (cq tq aq : List Nat) (s : Nat → Bool)
    (hqc : QArg.asQubits qc = some cq) (hqt : QArg.asQubits qt = some tq)
    (hqa : AncArg.asQubits qa = some aq)
    (hv : (cq ++ tq ++ aq).all valid = true) (hnd : (cq ++ tq ++ aq).Nodup)
    (hk : 2 ≤ cq.length) (ha : aq.length = cq.length - 1) :
    ∀ x ∈ aq, runOps g (mcmt valid qc qa qt "basic").1 s x = s x := by
  intro x hx
  obtain ⟨hcnd, htnd, hand, hct, hca, hta⟩ := nodup_parts cq tq aq hnd
  cases cq with
  | nil => simp at hk
  | cons c0 cq1 =>
    cases cq1 with
    | nil => simp at hk
    | cons c1 rest =>
      have ha' : aq.length = rest.length + 1 := by simpa using ha
      rw [mcmt_basic_success valid qc qa qt c0 c1 rest tq aq hqc hqt hqa hv hnd
        (by omega)]
      show runOps g (chainOps c0 c1 rest aq
          ++ tq.map (fun z => Op.cgate (aq.getD (aq.length - 1) 0) z)
          ++ ccx_v_chain_uncompute (c0 :: c1 :: rest) aq) s x = s x
      rw [runOps_append, runOps_append, uncompute_eq_reverse c0 c1 rest aq ha']
      have hcontrols_anc : ((c0 :: c1 :: rest) ++ aq).Nodup :=
        nodup_controls_anc (c0 :: c1 :: rest) tq aq hnd
      have hgood := chainOps_good c0 c1 rest aq hcontrols_anc (by omega)
      have hops : ∀ op ∈ (chainOps c0 c1 rest aq).reverse, ∀ z ∈ Op.qubits op,
          z ∈ c0 :: c1 :: rest ∨ z ∈ aq := by
        intro op hop z hz
        rw [List.mem_reverse] at hop
        obtain ⟨xx, yy, tt, rfl, httan, -, -, hxx, hyy⟩ := hgood op hop
        simp only [Op.qubits, List.mem_cons, List.not_mem_nil, or_false] at hz
        rcases hz with rfl | rfl | rfl
        · exact Or.inl hxx
        · exact hyy
        · exact Or.inr httan
      have hagree : ∀ q, (q ∈ c0 :: c1 :: rest ∨ q ∈ aq) →
          runOps g (tq.map (fun z => Op.cgate (aq.getD (aq.length - 1) 0) z))
            (runOps g (chainOps c0 c1 rest aq) s) q
          = runOps g (chainOps c0 c1 rest aq) s q := by
        intro q hq
        apply run_cgates_frame
        intro hmem
        rcases hq with hqcq | hqaq
        · exact hct hqcq hmem
        · exact hta hmem hqaq
      rw [runOps_agree g (fun q => q ∈ c0 :: c1 :: rest ∨ q ∈ aq)
        ((chainOps c0 c1 rest aq).reverse) hops _ _ hagree x (Or.inr hx)]
      have hcancel := runOps_reverse_cancel g (chainOps c0 c1 rest aq) s ?shape
      case shape =>
        intro op hop
        obtain ⟨xx, yy, tt, rfl, -, hne1, hne2, -, -⟩ := hgood op hop
        exact ⟨xx, yy, tt, rfl, hne1, hne2⟩
      rw [hcancel]

theorem C2_witness :
    runOps Bool.not (mcmt (fun _ => true) (QArg.list [0, 1]) (AncArg.list [2])
        (QArg.list [3]) "basic").1 (fun q => decide (q < 2)) 2
      = (fun q : Nat => decide (q < 2)) 2 :=
  C2_ancilla_roundtrip Bool.not (fun _ => true) (QArg.list [0, 1]) (AncArg.list [2])
    (QArg.list [3]) [0, 1] [3] [2] (fun q => decide (q < 2)) rfl rfl rfl (by decide)
    (by decide) (by decide) (by decide) 2 (by decide)
